import Mathlib

/-!
Verification of the document-parsing pipeline of `helmighanmi/document_parsing`
against its natural-language specification.

The Python sources are shallowly embedded here:

* `src/parsers.py` — `DocumentParser`: tool selection (`parse`,
  `_get_parser_method`, `_auto_select_parser`), scan detection
  (`_is_scanned_pdf`), full page classification (`_analyze_pdf`), and the
  individual engine adapters (`_parse_with_pymupdf`, `_parse_with_pymupdf4llm`,
  `_parse_with_docling`, `_parse_with_pdfplumber`, `_parse_powerpoint`).
* `src/app.py` — the chunker (`_clean_text`, `chunk_text`) and the RAG export
  (`_stable_id`, `build_rag_json`).

External collaborators (fitz/PyMuPDF, pdfplumber, python-pptx, docling,
hashlib) are abstracted as the data the code reads from them: a fitz page is
its extracted text plus its image count, a pdfplumber page is its text plus
its extracted tables, a docling conversion is its status/markdown payload, and
the SHA-1 hex digest is an arbitrary function `String → String`.  Python
strings are modelled as `String`/`List Char`; Python integer arithmetic is
`Nat`.  The single floating-point comparison in scope
(`pages_without_text / min(5, total_pages) > 0.7`) is modelled by the exact
rational comparison, which agrees with the float one for every reachable
value (numerators and denominators are at most 5, and no reachable quotient
lies within 2^-50 of 0.7).
-/

namespace DocParse

/-! ## Python string primitives -/

/-- The whitespace characters Python's `str.strip()` removes (the ASCII ones;
no other whitespace occurs in this development). -/
def isPyWs (c : Char) : Bool :=
  c = ' ' || c = '\t' || c = '\n' || c = '\r' || c = '\x0b' || c = '\x0c'

/-- Left part of Python `str.strip()`. -/
def stripLeft (l : List Char) : List Char := l.dropWhile isPyWs

/-- Right part of Python `str.strip()`. -/
def stripRight (l : List Char) : List Char := (l.reverse.dropWhile isPyWs).reverse

/-- Python `str.strip()` on a list of characters. -/
def pyStrip (l : List Char) : List Char := stripRight (stripLeft l)

/-- Python `s[a:b]` for `0 ≤ a, b`. -/
def sliceL (l : List Char) (a b : Nat) : List Char := (l.drop a).take (b - a)

/-- Python `sep.join(parts)`. -/
def strJoinSep (sep : String) : List String → String
  | [] => ""
  | [x] => x
  | x :: y :: xs => x ++ sep ++ strJoinSep sep (y :: xs)

/-- Python `s[:n]` on a `String`. -/
def strTake (n : Nat) (s : String) : String := ⟨s.data.take n⟩

/-- `List.map` with a running 1-based (or arbitrary-based) counter, the shape
of Python's `for i, x in enumerate(l)` loops. -/
def mapIdx1 {α β : Type} (f : Nat → α → β) : Nat → List α → List β
  | _, [] => []
  | k, a :: t => f k a :: mapIdx1 f (k + 1) t

/-! ## PDF page classification (`_is_scanned_pdf`, `_analyze_pdf`) -/

/-- A fitz (PyMuPDF) page as the classifier consumes it: the `get_text()`
result and how many entries `get_images()` reports. -/
structure FitzPage where
  text : String
  images : Nat
deriving DecidableEq

/-- `has_text = len(page.get_text().strip()) > 50` of `_analyze_pdf`. -/
def pageHasText (p : FitzPage) : Bool := decide (50 < (pyStrip p.text.data).length)

/-- `has_images = len(page.get_images()) > 0` of `_analyze_pdf`. -/
def pageHasImages (p : FitzPage) : Bool := decide (0 < p.images)

/-- A page that `_is_scanned_pdf` counts as having no text:
`not text or len(text) < 50` on the stripped text (the first disjunct is
subsumed by the second, as the empty string has length 0 < 50). -/
def pageTextless (p : FitzPage) : Bool := decide ((pyStrip p.text.data).length < 50)

/-- `_is_scanned_pdf`.  `none` models any failure to open or read the
document: the broad `except` clause logs and returns `False`.  A zero-page
document divides by `min(5, 0) = 0`, and the resulting `ZeroDivisionError`
is caught by the same clause, hence also `false`.  The float comparison
`ratio > 0.7` is the exact rational one here (see the file header). -/
def isScannedPdf (doc : Option (List FitzPage)) : Bool :=
  match doc with
  | none => false
  | some pages =>
    if pages.isEmpty then false
    else
      let k := min 5 pages.length
      let c := ((pages.take k).filter pageTextless).length
      decide (7 * k < 10 * c)

/-- The classification loop of `_analyze_pdf`: walks the pages with a 1-based
page counter and appends the page number to the scanned / hybrid / digital
list following the source's `if not has_text and has_images / elif has_text
and has_images / elif has_text` chain.  A page failing all three tests (no
text and no images) is appended nowhere. -/
def classifyFrom : Nat → List FitzPage → List Nat × List Nat × List Nat
  | _, [] => ([], [], [])
  | k, p :: rest =>
    let r := classifyFrom (k + 1) rest
    if !(pageHasText p) && pageHasImages p then (k :: r.1, r.2.1, r.2.2)
    else if pageHasText p && pageHasImages p then (r.1, k :: r.2.1, r.2.2)
    else if pageHasText p then (r.1, r.2.1, k :: r.2.2)
    else r

/-- The dictionary `_analyze_pdf` returns on success. -/
structure PdfAnalysis where
  type : String
  total_pages : Nat
  scanned_pages : List Nat
  hybrid_pages : List Nat
  digital_pages : List Nat
  has_text : Bool
deriving DecidableEq

/-- `_analyze_pdf` on a document that opens and reads without error (on any
error the source returns the empty dict instead). -/
def analyzePdf (pages : List FitzPage) : PdfAnalysis :=
  let c := classifyFrom 1 pages
  { type :=
      if c.1.length = pages.length then "Scanned"
      else if c.2.2.length = pages.length then "Digital"
      else "Hybrid"
  , total_pages := pages.length
  , scanned_pages := c.1
  , hybrid_pages := c.2.1
  , digital_pages := c.2.2
  , has_text := decide (0 < c.2.2.length) || decide (0 < c.2.1.length) }

/-- The page numbers (counted from `k`) of the pages satisfying `cond`, in
page order: the common shape of the three lists `classifyFrom` builds. -/
def selPages (cond : FitzPage → Bool) : Nat → List FitzPage → List Nat
  | _, [] => []
  | k, p :: rest =>
    if cond p then k :: selPages cond (k + 1) rest else selPages cond (k + 1) rest

/-- Scanned-page test of `_analyze_pdf`: no meaningful text, at least one image. -/
def scannedCond (p : FitzPage) : Bool := !(pageHasText p) && pageHasImages p

/-- Hybrid-page test of `_analyze_pdf`: meaningful text and at least one image. -/
def hybridCond (p : FitzPage) : Bool := pageHasText p && pageHasImages p

/-- Digital-page test of `_analyze_pdf`: meaningful text and no images. -/
def digitalCond (p : FitzPage) : Bool := pageHasText p && !(pageHasImages p)

theorem classifyFrom_fst (k : Nat) (pages : List FitzPage) :
    (classifyFrom k pages).1 = selPages scannedCond k pages := by
  induction pages generalizing k with
  | nil => rfl
  | cons p rest ih =>
    by_cases hT : pageHasText p = true <;> by_cases hI : pageHasImages p = true <;>
      simp [classifyFrom, selPages, scannedCond, hT, hI, ih]

theorem classifyFrom_hyb (k : Nat) (pages : List FitzPage) :
    (classifyFrom k pages).2.1 = selPages hybridCond k pages := by
  induction pages generalizing k with
  | nil => rfl
  | cons p rest ih =>
    by_cases hT : pageHasText p = true <;> by_cases hI : pageHasImages p = true <;>
      simp [classifyFrom, selPages, hybridCond, hT, hI, ih]

theorem classifyFrom_dig (k : Nat) (pages : List FitzPage) :
    (classifyFrom k pages).2.2 = selPages digitalCond k pages := by
  induction pages generalizing k with
  | nil => rfl
  | cons p rest ih =>
    by_cases hT : pageHasText p = true <;> by_cases hI : pageHasImages p = true <;>
      simp [classifyFrom, selPages, digitalCond, hT, hI, ih]

theorem mem_selPages (cond : FitzPage → Bool) (k m : Nat) (pages : List FitzPage) :
    m ∈ selPages cond k pages ↔
      ∃ i, ∃ h : i < pages.length, m = k + i ∧ cond (pages.get ⟨i, h⟩) = true := by
  induction pages generalizing k with
  | nil => simp [selPages]
  | cons p rest ih =>
    constructor
    · intro hm
      by_cases hc : cond p = true
      · rw [selPages, if_pos hc] at hm
        rcases List.mem_cons.mp hm with rfl | hm
        · exact ⟨0, by simp, by omega, hc⟩
        · rcases (ih (k + 1)).mp hm with ⟨i, hi, hmi, hci⟩
          exact ⟨i + 1, by simp only [List.length_cons]; omega, by omega, hci⟩
      · rw [selPages, if_neg hc] at hm
        rcases (ih (k + 1)).mp hm with ⟨i, hi, hmi, hci⟩
        exact ⟨i + 1, by simp only [List.length_cons]; omega, by omega, hci⟩
    · rintro ⟨i, hi, hmi, hci⟩
      cases i with
      | zero =>
        subst hmi
        have hc : cond p = true := hci
        simp [selPages, hc]
      | succ j =>
        have hj : j < rest.length := by simp only [List.length_cons] at hi; omega
        subst hmi
        have hmem : k + (j + 1) ∈ selPages cond (k + 1) rest :=
          (ih (k + 1)).mpr ⟨j, hj, by omega, hci⟩
        by_cases hc : cond p = true <;> simp [selPages, hc, hmem]

theorem scannedCond_iff (p : FitzPage) :
    scannedCond p = true ↔ (pyStrip p.text.data).length ≤ 50 ∧ 0 < p.images := by
  simp [scannedCond, pageHasText, pageHasImages, Nat.not_lt]

theorem hybridCond_iff (p : FitzPage) :
    hybridCond p = true ↔ 50 < (pyStrip p.text.data).length ∧ 0 < p.images := by
  simp [hybridCond, pageHasText, pageHasImages]

theorem digitalCond_iff (p : FitzPage) :
    digitalCond p = true ↔ 50 < (pyStrip p.text.data).length ∧ p.images = 0 := by
  simp [digitalCond, pageHasText, pageHasImages, Nat.not_lt, Nat.le_zero]

/-- Claim C1 (amended): in `_analyze_pdf`'s result the three page-number
lists are pairwise disjoint and contained in `{1..total_pages}`, and page
`i+1` appears in `scanned_pages` iff its stripped text has length ≤ 50 and it
has at least one image, in `hybrid_pages` iff text > 50 with an image, and in
`digital_pages` iff text > 50 without images.  A page with text ≤ 50 and no
images is appended to no list (the source's `if/elif` chain has no final
`else`), so the union can be a proper subset of `{1..total_pages}` — the
original claim's union property and scanned-default fail, see the
counterexample. -/
theorem analyzePdf_partition (pages : List FitzPage) (m : Nat) :
    ((m ∈ (analyzePdf pages).scanned_pages ↔
        ∃ i, ∃ h : i < pages.length, m = i + 1 ∧
          (pyStrip (pages.get ⟨i, h⟩).text.data).length ≤ 50 ∧
          0 < (pages.get ⟨i, h⟩).images) ∧
     (m ∈ (analyzePdf pages).hybrid_pages ↔
        ∃ i, ∃ h : i < pages.length, m = i + 1 ∧
          50 < (pyStrip (pages.get ⟨i, h⟩).text.data).length ∧
          0 < (pages.get ⟨i, h⟩).images) ∧
     (m ∈ (analyzePdf pages).digital_pages ↔
        ∃ i, ∃ h : i < pages.length, m = i + 1 ∧
          50 < (pyStrip (pages.get ⟨i, h⟩).text.data).length ∧
          (pages.get ⟨i, h⟩).images = 0)) ∧
    (¬ (m ∈ (analyzePdf pages).scanned_pages ∧ m ∈ (analyzePdf pages).hybrid_pages) ∧
     ¬ (m ∈ (analyzePdf pages).scanned_pages ∧ m ∈ (analyzePdf pages).digital_pages) ∧
     ¬ (m ∈ (analyzePdf pages).hybrid_pages ∧ m ∈ (analyzePdf pages).digital_pages)) ∧
    (m ∈ (analyzePdf pages).scanned_pages ∨ m ∈ (analyzePdf pages).hybrid_pages ∨
        m ∈ (analyzePdf pages).digital_pages →
      1 ≤ m ∧ m ≤ (analyzePdf pages).total_pages) := by
  have hs : (analyzePdf pages).scanned_pages = selPages scannedCond 1 pages :=
    classifyFrom_fst 1 pages
  have hh : (analyzePdf pages).hybrid_pages = selPages hybridCond 1 pages :=
    classifyFrom_hyb 1 pages
  have hd : (analyzePdf pages).digital_pages = selPages digitalCond 1 pages :=
    classifyFrom_dig 1 pages
  have ht : (analyzePdf pages).total_pages = pages.length := rfl
  refine ⟨⟨?_, ?_, ?_⟩, ⟨?_, ?_, ?_⟩, ?_⟩
  · rw [hs, mem_selPages]
    constructor
    · rintro ⟨i, hi, hmi, hc⟩
      rcases (scannedCond_iff _).mp hc with ⟨h1, h2⟩
      exact ⟨i, hi, by omega, h1, h2⟩
    · rintro ⟨i, hi, hmi, h1, h2⟩
      exact ⟨i, hi, by omega, (scannedCond_iff _).mpr ⟨h1, h2⟩⟩
  · rw [hh, mem_selPages]
    constructor
    · rintro ⟨i, hi, hmi, hc⟩
      rcases (hybridCond_iff _).mp hc with ⟨h1, h2⟩
      exact ⟨i, hi, by omega, h1, h2⟩
    · rintro ⟨i, hi, hmi, h1, h2⟩
      exact ⟨i, hi, by omega, (hybridCond_iff _).mpr ⟨h1, h2⟩⟩
  · rw [hd, mem_selPages]
    constructor
    · rintro ⟨i, hi, hmi, hc⟩
      rcases (digitalCond_iff _).mp hc with ⟨h1, h2⟩
      exact ⟨i, hi, by omega, h1, h2⟩
    · rintro ⟨i, hi, hmi, h1, h2⟩
      exact ⟨i, hi, by omega, (digitalCond_iff _).mpr ⟨h1, h2⟩⟩
  · rintro ⟨h1, h2⟩
    rw [hs, mem_selPages] at h1
    rw [hh, mem_selPages] at h2
    rcases h1 with ⟨i, hi, hmi, hci⟩
    rcases h2 with ⟨j, hj, hmj, hcj⟩
    have hij : i = j := by omega
    subst hij
    rcases (scannedCond_iff _).mp hci with ⟨ha, _⟩
    rcases (hybridCond_iff _).mp hcj with ⟨hb, _⟩
    omega
  · rintro ⟨h1, h2⟩
    rw [hs, mem_selPages] at h1
    rw [hd, mem_selPages] at h2
    rcases h1 with ⟨i, hi, hmi, hci⟩
    rcases h2 with ⟨j, hj, hmj, hcj⟩
    have hij : i = j := by omega
    subst hij
    rcases (scannedCond_iff _).mp hci with ⟨ha, _⟩
    rcases (digitalCond_iff _).mp hcj with ⟨hb, _⟩
    omega
  · rintro ⟨h1, h2⟩
    rw [hh, mem_selPages] at h1
    rw [hd, mem_selPages] at h2
    rcases h1 with ⟨i, hi, hmi, hci⟩
    rcases h2 with ⟨j, hj, hmj, hcj⟩
    have hij : i = j := by omega
    subst hij
    rcases (hybridCond_iff _).mp hci with ⟨_, ha⟩
    rcases (digitalCond_iff _).mp hcj with ⟨_, hb⟩
    omega
  · intro hmem
    rw [ht]
    rcases hmem with h1 | h1 | h1
    · rw [hs, mem_selPages] at h1
      rcases h1 with ⟨i, hi, hmi, _⟩
      omega
    · rw [hh, mem_selPages] at h1
      rcases h1 with ⟨i, hi, hmi, _⟩
      omega
    · rw [hd, mem_selPages] at h1
      rcases h1 with ⟨i, hi, hmi, _⟩
      omega

/-- Claim C1, counterexample to the original statement: a one-page PDF whose
page has empty text and no images.  `_analyze_pdf` places the page in none of
the three lists, so their union is `∅ ≠ {1}`, and in particular the page
(text length 0 ≤ 50, no images) is not in `scanned_pages`. -/
theorem analyzePdf_blank_page_cex :
    (analyzePdf [⟨"", 0⟩]).total_pages = 1 ∧
    (analyzePdf [⟨"", 0⟩]).scanned_pages = [] ∧
    (analyzePdf [⟨"", 0⟩]).hybrid_pages = [] ∧
    (analyzePdf [⟨"", 0⟩]).digital_pages = [] := by
  decide

/-- Claim C2: `_is_scanned_pdf` never raises — the embedding is total, any
open/read failure is `none ↦ false`, and the zero-page `ZeroDivisionError` is
the caught `some [] ↦ false` case — and for a readable non-empty document it
returns `true` exactly when the textless fraction of the first
`min(5, total_pages)` pages strictly exceeds 0.7. -/
theorem isScannedPdf_spec :
    (isScannedPdf none = false) ∧
    (isScannedPdf (some []) = false) ∧
    ∀ pages : List FitzPage, pages ≠ [] →
      (isScannedPdf (some pages) = true ↔
        (7 : ℚ) / 10 <
          (((pages.take (min 5 pages.length)).filter pageTextless).length : ℚ) /
            (min 5 pages.length : ℚ)) := by
  refine ⟨rfl, rfl, ?_⟩
  intro pages hne
  have hk : 0 < min 5 pages.length := by
    have : 0 < pages.length := List.length_pos.mpr hne
    omega
  have hemp : pages.isEmpty = false := by
    simp [List.isEmpty_iff, hne]
  rw [isScannedPdf]
  simp only [hemp, Bool.false_eq_true, if_false, decide_eq_true_eq]
  rw [div_lt_div_iff₀ (by norm_num) (by exact_mod_cast hk)]
  constructor
  · intro h
    have := (Nat.cast_lt (α := ℚ)).mpr h
    push_cast at this ⊢
    linarith
  · intro h
    have h2 : (7 : ℚ) * (min 5 pages.length : ℚ) <
        (10 : ℚ) * (((pages.take (min 5 pages.length)).filter pageTextless).length : ℚ) := by
      linarith
    exact_mod_cast h2

/-- The spec's synthetic sample for quick scan-detection: four pages with
fewer than 50 characters of text, one with 500. -/
def scannedSample : List FitzPage :=
  [⟨"", 0⟩, ⟨"", 0⟩, ⟨"", 0⟩, ⟨"", 0⟩, ⟨⟨List.replicate 500 'a'⟩, 0⟩]

/-- Witness for C2 at the synthetic 5-page sample. -/
theorem isScannedPdf_spec_witness :
    scannedSample ≠ [] ∧
    (isScannedPdf (some scannedSample) = true ↔
      (7 : ℚ) / 10 <
        (((scannedSample.take (min 5 scannedSample.length)).filter pageTextless).length : ℚ) /
          (min 5 scannedSample.length : ℚ)) :=
  ⟨by decide, isScannedPdf_spec.2.2 scannedSample (by decide)⟩

/-! ## Tool selection (`parse`, `_get_parser_method`, `_auto_select_parser`) -/

/-- The parser methods of `DocumentParser`, i.e. the values of
`_get_parser_method`'s `method_map` plus `_parse_text`, which only
auto-selection can reach. -/
inductive EngineId where
  | pymupdf
  | pymupdf4llm
  | docling
  | unstructured
  | pdfplumber
  | pythonDocx
  | pythonPptx
  | openpyxl
  | tesseractOcr
  | easyocr
  | builtinText
deriving DecidableEq

/-- The document types `_get_document_type` can return. -/
inductive DocType where
  | pdf
  | word
  | powerpoint
  | excel
  | text
  | unknown
deriving DecidableEq

/-- The string `_auto_select_parser` interpolates into its error message. -/
def docTypeStr : DocType → String
  | .pdf => "pdf"
  | .word => "word"
  | .powerpoint => "powerpoint"
  | .excel => "excel"
  | .text => "text"
  | .unknown => "unknown"

/-- `_get_parser_method`: the `method_map` lookup; an unregistered name
raises `ValueError(f"Unknown tool: {tool_name}")`. -/
def getParserMethod (t : String) : Except String EngineId :=
  if t = "pymupdf" then .ok .pymupdf
  else if t = "pymupdf4llm" then .ok .pymupdf4llm
  else if t = "docling" then .ok .docling
  else if t = "unstructured" then .ok .unstructured
  else if t = "pdfplumber" then .ok .pdfplumber
  else if t = "python-docx" then .ok .pythonDocx
  else if t = "python-pptx" then .ok .pythonPptx
  else if t = "openpyxl" then .ok .openpyxl
  else if t = "tesseract_ocr" then .ok .tesseractOcr
  else if t = "easyocr" then .ok .easyocr
  else .error ("Unknown tool: " ++ t)

/-- `_auto_select_parser`.  `scanned` is what `_is_scanned_pdf` returned for
the file; it is consulted only when `detectScanned` (the constructor's
`detect_scanned`) is set.  An unknown type raises
`ValueError(f"Unsupported document type: {doc_type}")`. -/
def autoSelectParser (detectScanned : Bool) (docType : DocType) (scanned : Bool) :
    Except String EngineId :=
  match docType with
  | .pdf => if detectScanned && scanned then .ok .tesseractOcr else .ok .pymupdf4llm
  | .word => .ok .pythonDocx
  | .powerpoint => .ok .pythonPptx
  | .excel => .ok .openpyxl
  | .text => .ok .builtinText
  | .unknown => .error ("Unsupported document type: " ++ docTypeStr .unknown)

/-- The tool-selection step of `DocumentParser.parse`: `if self.tool:` is a
truthiness test, so both `None` and the empty string mean "no explicit
tool" and go to `_auto_select_parser`; any non-empty `tool` goes through
`_get_parser_method`. -/
def selectParser (tool : Option String) (detectScanned : Bool) (docType : DocType)
    (scanned : Bool) : Except String EngineId :=
  match tool with
  | some t =>
    if t.isEmpty then autoSelectParser detectScanned docType scanned
    else getParserMethod t
  | none => autoSelectParser detectScanned docType scanned

/-- `parse` after selection: the chosen parser method is invoked on the
document (`run` abstracts `parser_method(document_path)`); a selection error
propagates before any engine runs. -/
def runParse {α : Type} (run : EngineId → α) (tool : Option String)
    (detectScanned : Bool) (docType : DocType) (scanned : Bool) : Except String α :=
  (selectParser tool detectScanned docType scanned).map run

/-- Claim C3: an explicit registered tool identifier is always selected and
invoked, whatever the document type and whatever the scan classification
(in particular `pdfplumber`); an unregistered identifier makes `parse` raise
`Unknown tool` before any engine runs (the result is the error for every
possible engine behaviour `run`).  The empty string is not an explicit
identifier: `if self.tool:` is falsy on it and auto-selection takes over,
hence the `t ≠ ""` side condition on the unregistered case (no *registered*
identifier is empty, so the registered cases need none). -/
theorem selectParser_explicit_tool :
    (∀ (t : String) (e : EngineId) (ds : Bool) (dt : DocType) (sc : Bool),
        getParserMethod t = .ok e → selectParser (some t) ds dt sc = .ok e) ∧
    (∀ (ds : Bool) (dt : DocType) (sc : Bool),
        selectParser (some "pdfplumber") ds dt sc = .ok .pdfplumber) ∧
    (∀ (α : Type) (run : EngineId → α) (t : String) (e : EngineId) (ds : Bool)
        (dt : DocType) (sc : Bool),
        getParserMethod t = .ok e →
        runParse run (some t) ds dt sc = .ok (run e)) ∧
    (∀ (α : Type) (run : EngineId → α) (t m : String) (ds : Bool)
        (dt : DocType) (sc : Bool),
        t ≠ "" → getParserMethod t = .error m →
        runParse run (some t) ds dt sc = .error m) ∧
    (∀ t : String, (∀ e : EngineId, getParserMethod t ≠ .ok e) →
        getParserMethod t = .error ("Unknown tool: " ++ t)) := by
  have hok_ne : ∀ (t : String) (e : EngineId), getParserMethod t = .ok e → t.isEmpty = false := by
    intro t e h
    by_cases ht : t.isEmpty = true
    · exfalso
      have : t = "" := (String.isEmpty_iff t).mp ht
      subst this
      simp [getParserMethod] at h
    · exact Bool.eq_false_iff.mpr ht
  refine ⟨?_, ?_, ?_, ?_, ?_⟩
  · intro t e ds dt sc h
    rw [selectParser, hok_ne t e h]
    simpa using h
  · intro ds dt sc
    rfl
  · intro α run t e ds dt sc h
    rw [runParse, selectParser, hok_ne t e h]
    simp [h, Except.map]
  · intro α run t m ds dt sc ht h
    have hemp : t.isEmpty = false := by
      rw [Bool.eq_false_iff]
      intro hcon
      exact ht ((String.isEmpty_iff t).mp hcon)
    rw [runParse, selectParser, hemp]
    simp [h, Except.map]
  · intro t h
    unfold getParserMethod
    split_ifs with h1 h2 h3 h4 h5 h6 h7 h8 h9 h10
    · exact absurd (show getParserMethod t = Except.ok EngineId.pymupdf by
        simp [getParserMethod, h1]) (h EngineId.pymupdf)
    · exact absurd (show getParserMethod t = Except.ok EngineId.pymupdf4llm by
        simp [getParserMethod, h1, h2]) (h EngineId.pymupdf4llm)
    · exact absurd (show getParserMethod t = Except.ok EngineId.docling by
        simp [getParserMethod, h1, h2, h3]) (h EngineId.docling)
    · exact absurd (show getParserMethod t = Except.ok EngineId.unstructured by
        simp [getParserMethod, h1, h2, h3, h4]) (h EngineId.unstructured)
    · exact absurd (show getParserMethod t = Except.ok EngineId.pdfplumber by
        simp [getParserMethod, h1, h2, h3, h4, h5]) (h EngineId.pdfplumber)
    · exact absurd (show getParserMethod t = Except.ok EngineId.pythonDocx by
        simp [getParserMethod, h1, h2, h3, h4, h5, h6]) (h EngineId.pythonDocx)
    · exact absurd (show getParserMethod t = Except.ok EngineId.pythonPptx by
        simp [getParserMethod, h1, h2, h3, h4, h5, h6, h7]) (h EngineId.pythonPptx)
    · exact absurd (show getParserMethod t = Except.ok EngineId.openpyxl by
        simp [getParserMethod, h1, h2, h3, h4, h5, h6, h7, h8]) (h EngineId.openpyxl)
    · exact absurd (show getParserMethod t = Except.ok EngineId.tesseractOcr by
        simp [getParserMethod, h1, h2, h3, h4, h5, h6, h7, h8, h9]) (h EngineId.tesseractOcr)
    · exact absurd (show getParserMethod t = Except.ok EngineId.easyocr by
        simp [getParserMethod, h1, h2, h3, h4, h5, h6, h7, h8, h9, h10]) (h EngineId.easyocr)
    · rfl

/-! ## The canonical document model and the engine adapters -/

/-- One entry of a result's `pages` list.  Page-level `metadata`
(width/height floats from the external engines) and `bboxes` carry no
decision logic and no claim touches them, so they are not modelled. -/
structure PyPage where
  page_number : Nat
  content : String
deriving DecidableEq

/-- The dictionary a parser method returns (before `parse` adds
`file_name`/`file_type`/`file_size`).  Document-level `metadata` values in
scope are all integer counts. -/
structure PyDoc where
  tool_used : String
  content : String
  pages : List PyPage
  metadata : List (String × Nat)
  pdf_analysis : Option PdfAnalysis
  errors : List String
deriving DecidableEq

/-- The f-string `f"## Page {n}\n\n{text}\n"` (or `## Slide` for
PowerPoint) appended to the `content` list for each page. -/
def pageSection (heading : String) (n : Nat) (text : String) : String :=
  heading ++ toString n ++ "\n\n" ++ text ++ "\n"

/-- `_parse_with_pymupdf`, the fitz document abstracted as its page list.
Image extraction (`extract_images=False` is the constructor default) is
modelled off; no claim touches `images`. -/
def parseWithPymupdf (detectScanned : Bool) (doc : List FitzPage) : PyDoc :=
  { tool_used := "PyMuPDF"
  , content := strJoinSep "\n" (mapIdx1 (fun n p => pageSection "## Page " n p.text) 1 doc)
  , pages := mapIdx1 (fun n p => { page_number := n, content := p.text }) 1 doc
  , metadata := [("page_count", doc.length)]
  , pdf_analysis := if detectScanned then some (analyzePdf doc) else none
  , errors := [] }

/-- `_parse_with_pymupdf4llm` when the import succeeds: `mdText` is the
external `pymupdf4llm.to_markdown(pdf_path)` output, used verbatim as
`content`, while `pages` comes from a separate fitz pass over the same file.
On `ImportError` the source falls back to `_parse_with_pymupdf`. -/
def parseWithPymupdf4llm (available : Bool) (detectScanned : Bool) (mdText : String)
    (doc : List FitzPage) : PyDoc :=
  if available then
    { tool_used := "PyMuPDF4LLM"
    , content := mdText
    , pages := mapIdx1 (fun n p => { page_number := n, content := p.text }) 1 doc
    , metadata := [("page_count", doc.length)]
    , pdf_analysis := if detectScanned then some (analyzePdf doc) else none
    , errors := [] }
  else parseWithPymupdf detectScanned doc

/-- What `_parse_with_docling` reads from a successful
`converter.convert(...)` call. -/
structure DoclingResult where
  statusFailure : Bool
  errors : List String
  fullMd : String
  textExport : String
  pageMds : List String
deriving DecidableEq

/-- `_parse_with_docling`.  `outcome = .error _` models the conversion
raising — `ImportError` or any other exception — which the source catches
and answers with a `_parse_with_pymupdf` retry on the same file. -/
def parseWithDocling (detectScanned : Bool) (doc : List FitzPage)
    (outcome : Except String DoclingResult) : PyDoc :=
  match outcome with
  | .error _ => parseWithPymupdf detectScanned doc
  | .ok r =>
    if r.statusFailure then
      { tool_used := "Docling", content := "", pages := [], metadata := []
      , pdf_analysis := none, errors := r.errors }
    else
      { tool_used := "Docling"
      , content := if (pyStrip r.fullMd.data).isEmpty then r.textExport else r.fullMd
      , pages := mapIdx1 (fun n md => { page_number := n, content := md }) 1 r.pageMds
      , metadata := [("page_count", r.pageMds.length)]
      , pdf_analysis := none
      , errors := [] }

/-- `_parse_powerpoint`; a slide is abstracted as the texts of its shapes
that have a `text` attribute, and `slide_content = '\n'.join(slide_text)`. -/
def parsePowerpoint (slides : List (List String)) : PyDoc :=
  { tool_used := "python-pptx"
  , content := strJoinSep "\n"
      (mapIdx1 (fun n texts => pageSection "## Slide " n (strJoinSep "\n" texts)) 1 slides)
  , pages := mapIdx1 (fun n texts => { page_number := n, content := strJoinSep "\n" texts }) 1 slides
  , metadata := [("slides", slides.length)]
  , pdf_analysis := none
  , errors := [] }

/-- Claim C4: when the docling engine raises, `_parse_with_docling` does not
propagate the error; it returns the `_parse_with_pymupdf` result for the same
file, whose `tool_used` is the fallback identifier `"PyMuPDF"`. -/
theorem docling_fallback (detectScanned : Bool) (doc : List FitzPage) (err : String) :
    (parseWithDocling detectScanned doc (.error err)).tool_used = "PyMuPDF" ∧
    parseWithDocling detectScanned doc (.error err) = parseWithPymupdf detectScanned doc :=
  ⟨rfl, rfl⟩

/-! ## pdfplumber and its table serialization -/

/-- Header-row cell rendering of `_parse_with_pdfplumber`:
`str(cell)` — Python's `str(None)` is the string `"None"`. -/
def headerCellStr : Option String → String
  | none => "None"
  | some s => s

/-- Data-row cell rendering of `_parse_with_pdfplumber`:
`str(cell) if cell else ""` (both `None` and the falsy `""` render empty). -/
def dataCellStr : Option String → String
  | none => ""
  | some s => s

/-- `"| " + " | ".join(cells) + " |\n"`. -/
def mdRow (cellStr : Option String → String) (row : List (Option String)) : String :=
  "| " ++ strJoinSep " | " (row.map cellStr) ++ " |\n"

/-- `"|" + "|".join(["---"] * len(table[0])) + "|\n"`. -/
def mdSepRow (width : Nat) : String :=
  "|" ++ strJoinSep "|" (List.replicate width "---") ++ "|\n"

/-- The `table_md` contribution of one table in `_parse_with_pdfplumber`
(`idx` is the 0-based `enumerate` index): skipped entirely when the table is
empty (`if table:`), caption plus trailing newline always otherwise, pipe
rows only when the first row is non-empty (`if table[0]:`). -/
def tableBlock (idx : Nat) (table : List (List (Option String))) : String :=
  match table with
  | [] => ""
  | hd :: rows =>
    "\n**Table " ++ toString (idx + 1) ++ ":**\n\n" ++
    (if hd.isEmpty then ""
     else
       mdRow headerCellStr hd ++ mdSepRow hd.length ++
       String.join (rows.map (mdRow dataCellStr))) ++
    "\n"

/-- The `for table_idx, table in enumerate(tables)` accumulation. -/
def tablesMdFrom : Nat → List (List (List (Option String))) → String
  | _, [] => ""
  | k, t :: ts => tableBlock k t ++ tablesMdFrom (k + 1) ts

/-- The whole `table_md` string for one pdfplumber page. -/
def tablesMd (tables : List (List (List (Option String)))) : String :=
  tablesMdFrom 0 tables

/-- Modelled from the spec's words (§4.4): “Table content is serialized into
the page text as a Markdown pipe-table (header row, separator row of `---`,
then data rows); cell values are stringified, `None`/missing treated as
empty string.”  Identical in structure to `tableBlock` except that every
cell — the header row included — renders `None` as the empty string. -/
def specTableBlock (idx : Nat) (table : List (List (Option String))) : String :=
  match table with
  | [] => ""
  | hd :: rows =>
    "\n**Table " ++ toString (idx + 1) ++ ":**\n\n" ++
    (if hd.isEmpty then ""
     else
       mdRow dataCellStr hd ++ mdSepRow hd.length ++
       String.join (rows.map (mdRow dataCellStr))) ++
    "\n"

/-- `specTableBlock` accumulated over the page's tables. -/
def specTablesMdFrom : Nat → List (List (List (Option String))) → String
  | _, [] => ""
  | k, t :: ts => specTableBlock k t ++ specTablesMdFrom (k + 1) ts

/-- The spec-side `table_md` string for one pdfplumber page. -/
def specTablesMd (tables : List (List (List (Option String)))) : String :=
  specTablesMdFrom 0 tables

/-- One pdfplumber page as `_parse_with_pdfplumber` consumes it:
`page.extract_text() or ""` and `page.extract_tables()`. -/
structure PlumberPage where
  text : String
  tables : List (List (List (Option String)))
deriving DecidableEq

/-- `_parse_with_pdfplumber`; on `ImportError` (`available = false`) the
source falls back to `_parse_with_pymupdf` on the same file (`fitzDoc`). -/
def parseWithPdfplumber (available : Bool) (detectScanned : Bool)
    (pdf : List PlumberPage) (fitzDoc : List FitzPage) : PyDoc :=
  if available then
    { tool_used := "pdfplumber"
    , content := strJoinSep "\n"
        (mapIdx1 (fun n p => pageSection "## Page " n (p.text ++ "\n" ++ tablesMd p.tables)) 1 pdf)
    , pages := mapIdx1
        (fun n p => { page_number := n, content := p.text ++ "\n" ++ tablesMd p.tables }) 1 pdf
    , metadata := [("page_count", pdf.length)]
    , pdf_analysis := if detectScanned then some (analyzePdf fitzDoc) else none
    , errors := [] }
  else parseWithPymupdf detectScanned fitzDoc

/-- Claim C9, counterexample to the original statement: a table whose header
row holds a single `None` cell.  The source stringifies header cells with
bare `str(...)`, so the `None` cell is rendered `"None"`, not the empty
string the spec prescribes; the spec-faithful serializer disagrees. -/
theorem tablesMd_none_header_cex :
    tablesMd [[[none], [some "a"]]] ≠ specTablesMd [[[none], [some "a"]]] ∧
    tablesMd [[[none], [some "a"]]] = "\n**Table 1:**\n\n| None |\n|---|\n| a |\n\n" ∧
    specTablesMd [[[none], [some "a"]]] = "\n**Table 1:**\n\n|  |\n|---|\n| a |\n\n" := by
  refine ⟨?_, rfl, rfl⟩
  decide

/-- Claim C9 (amended): pdfplumber tables are serialized as a Markdown
pipe-table — header row, separator row of `---` cells, data rows, data-row
`None` cells rendered as the empty string — but header-row cells go through
bare `str(...)`, so the serialization matches the spec's exactly when no
header row contains `None`. -/
theorem tablesMd_spec (tables : List (List (List (Option String))))
    (h : ∀ t ∈ tables, ∀ c ∈ t.headD [], c ≠ none) :
    tablesMd tables = specTablesMd tables := by
  have main : ∀ (k : Nat) (ts : List (List (List (Option String)))),
      (∀ t ∈ ts, ∀ c ∈ t.headD [], c ≠ none) →
      tablesMdFrom k ts = specTablesMdFrom k ts := by
    intro k ts
    induction ts generalizing k with
    | nil => intro _; rfl
    | cons t rest ih =>
      intro hts
      have ht : ∀ c ∈ t.headD [], c ≠ none := hts t (by simp)
      have hrest : ∀ u ∈ rest, ∀ c ∈ u.headD [], c ≠ none := by
        intro u hu
        exact hts u (by simp [hu])
      rw [tablesMdFrom, specTablesMdFrom, ih (k + 1) hrest]
      congr 1
      cases t with
      | nil => rfl
      | cons hd rows =>
        simp only [tableBlock, specTableBlock]
        congr 2
        by_cases hhd : hd.isEmpty
        · simp [hhd]
        · simp only [hhd, if_false]
          congr 1
          unfold mdRow
          have hmap : List.map headerCellStr hd = List.map dataCellStr hd := by
            apply List.map_congr_left
            intro c hc
            have hcn : c ≠ none := ht c (by simpa using hc)
            cases c with
            | none => exact absurd rfl hcn
            | some s => rfl
          rw [hmap]
  exact main 0 tables h

/-- Witness for C9 at a table whose header has no `None` cells. -/
theorem tablesMd_spec_witness :
    (∀ t ∈ [[[some "h"], [none]]], ∀ c ∈ t.headD [], c ≠ (none : Option String)) ∧
    tablesMd [[[some "h"], [none]]] = specTablesMd [[[some "h"], [none]]] :=
  ⟨by decide, tablesMd_spec [[[some "h"], [none]]] (by decide)⟩

/-! ## The content/pages relationship (C5) -/

/-- Modelled from the spec's words (§4.4): “`content` must be the ordered
concatenation of page contents (when pages exist) separated by a single
blank line and a `## Page N` heading per page” — with the heading text a
parameter so the PowerPoint deviation can be stated against it. -/
def specHeadingConcat (heading : String) (pages : List PyPage) : String :=
  strJoinSep "\n\n"
    (pages.map fun p => heading ++ toString p.page_number ++ "\n\n" ++ p.content)

theorem map_mapIdx1 {α β γ : Type} (g : β → γ) (f : Nat → α → β) (k : Nat) (l : List α) :
    (mapIdx1 f k l).map g = mapIdx1 (fun n a => g (f n a)) k l := by
  induction l generalizing k with
  | nil => rfl
  | cons a t ih => simp [mapIdx1, ih]

theorem strJoinSep_sections {α : Type} (f : Nat → α → String) (k : Nat) (l : List α)
    (hl : l ≠ []) :
    strJoinSep "\n" (mapIdx1 (fun n a => f n a ++ "\n") k l) =
      strJoinSep "\n\n" (mapIdx1 f k l) ++ "\n" := by
  induction l generalizing k with
  | nil => exact absurd rfl hl
  | cons x t ih =>
    cases t with
    | nil => rfl
    | cons y t' =>
      have h2 : (y :: t') ≠ [] := by simp
      show f k x ++ "\n" ++ "\n" ++
          strJoinSep "\n" (mapIdx1 (fun n a => f n a ++ "\n") (k + 1) (y :: t')) =
        (f k x ++ "\n\n" ++ strJoinSep "\n\n" (mapIdx1 f (k + 1) (y :: t'))) ++ "\n"
      rw [ih (k + 1) h2]
      simp only [String.append_assoc]
      have hnl : ("\n" : String) ++
            ("\n" ++ (strJoinSep "\n\n" (mapIdx1 f (k + 1) (y :: t')) ++ "\n")) =
          "\n\n" ++ (strJoinSep "\n\n" (mapIdx1 f (k + 1) (y :: t')) ++ "\n") := by
        rw [← String.append_assoc]
        rfl
      exact congrArg (fun z => f k x ++ z) hnl

/-- Claim C5 (amended): for the engines that assemble `content` from their
page loop — PyMuPDF and pdfplumber here — `content` is the ordered
concatenation of the page contents under `## Page N` headings with
blank-line separation (plus a trailing newline); the PowerPoint reader uses
`## Slide N` headings instead of `## Page N`; and PyMuPDF4LLM's `content` is
the engine's native markdown, not assembled from `pages` at all. -/
theorem content_is_page_concat :
    (∀ (ds : Bool) (doc : List FitzPage), doc ≠ [] →
        (parseWithPymupdf ds doc).content =
          specHeadingConcat "## Page " (parseWithPymupdf ds doc).pages ++ "\n") ∧
    (∀ (ds : Bool) (pdf : List PlumberPage) (fitzDoc : List FitzPage), pdf ≠ [] →
        (parseWithPdfplumber true ds pdf fitzDoc).content =
          specHeadingConcat "## Page " (parseWithPdfplumber true ds pdf fitzDoc).pages ++ "\n") ∧
    (∀ slides : List (List String), slides ≠ [] →
        (parsePowerpoint slides).content =
          specHeadingConcat "## Slide " (parsePowerpoint slides).pages ++ "\n") ∧
    (∀ (ds : Bool) (mdText : String) (doc : List FitzPage),
        (parseWithPymupdf4llm true ds mdText doc).content = mdText) := by
  refine ⟨?_, ?_, ?_, ?_⟩
  · intro ds doc hne
    show strJoinSep "\n" (mapIdx1 (fun n p => pageSection "## Page " n p.text) 1 doc) = _
    simp only [pageSection]
    rw [strJoinSep_sections (fun n (p : FitzPage) => "## Page " ++ toString n ++ "\n\n" ++ p.text)
      1 doc hne]
    simp only [specHeadingConcat, parseWithPymupdf, map_mapIdx1]
  · intro ds pdf fitzDoc hne
    show strJoinSep "\n"
        (mapIdx1 (fun n p => pageSection "## Page " n (p.text ++ "\n" ++ tablesMd p.tables)) 1 pdf) = _
    simp only [pageSection]
    rw [strJoinSep_sections
      (fun n (p : PlumberPage) =>
        "## Page " ++ toString n ++ "\n\n" ++ (p.text ++ "\n" ++ tablesMd p.tables)) 1 pdf hne]
    simp only [specHeadingConcat, parseWithPdfplumber, if_true, map_mapIdx1]
  · intro slides hne
    show strJoinSep "\n"
        (mapIdx1 (fun n texts => pageSection "## Slide " n (strJoinSep "\n" texts)) 1 slides) = _
    simp only [pageSection]
    rw [strJoinSep_sections
      (fun n (texts : List String) =>
        "## Slide " ++ toString n ++ "\n\n" ++ strJoinSep "\n" texts) 1 slides hne]
    simp only [specHeadingConcat, parsePowerpoint, map_mapIdx1]
  · intro ds mdText doc
    rfl

/-- Witness for C5 on one-page inputs of each engine. -/
theorem content_is_page_concat_witness :
    ([(⟨"t", 0⟩ : FitzPage)] ≠ []) ∧
    (parseWithPymupdf false [⟨"t", 0⟩]).content =
      specHeadingConcat "## Page " (parseWithPymupdf false [⟨"t", 0⟩]).pages ++ "\n" :=
  ⟨by decide, (content_is_page_concat).1 false [⟨"t", 0⟩] (by decide)⟩

/-- Claim C5, counterexample to the original statement: a one-slide
PowerPoint.  Its `content` carries a `## Slide 1` heading, not the claimed
`## Page 1` heading, so `content` is not the `## Page N`-concatenation of
its (non-empty) pages list. -/
theorem content_powerpoint_cex :
    (parsePowerpoint [["hello"]]).pages = [{ page_number := 1, content := "hello" }] ∧
    (parsePowerpoint [["hello"]]).content = "## Slide 1\n\nhello\n" ∧
    (parsePowerpoint [["hello"]]).content ≠
      specHeadingConcat "## Page " (parsePowerpoint [["hello"]]).pages ++ "\n" ∧
    (parsePowerpoint [["hello"]]).content ≠
      specHeadingConcat "## Page " (parsePowerpoint [["hello"]]).pages := by
  refine ⟨rfl, rfl, ?_, ?_⟩ <;> decide

/-! ## The chunker (`_clean_text`, `chunk_text` of `src/app.py`) -/

/-- What a pending run of `run` newline characters contributes after
`re.sub(r"\n{3,}", "\n\n", s)`: a maximal run of three or more newlines
becomes exactly two, shorter runs are kept as they are. -/
def emitNL (run : Nat) : List Char :=
  if 3 ≤ run then ['\n', '\n'] else List.replicate run '\n'

/-- Scan for `re.sub(r"\n{3,}", "\n\n", s)`: `run` counts the newlines read
but not yet emitted (the regex's matches are exactly the maximal newline
runs). -/
def collapseNLAux : List Char → Nat → List Char
  | [], run => emitNL run
  | c :: rest, run =>
    if c = '\n' then collapseNLAux rest (run + 1)
    else emitNL run ++ c :: collapseNLAux rest 0

/-- `re.sub(r"\n{3,}", "\n\n", s)`. -/
def collapseNL (l : List Char) : List Char := collapseNLAux l 0

/-- A space or a tab: the character class `[ \t]`. -/
def isSpTab (c : Char) : Bool := c = ' ' || c = '\t'

/-- What a pending run of space/tab characters contributes after
`re.sub(r"[ \t]{2,}", " ", s)`: a maximal run of two or more becomes a
single space, a lone space or tab is kept unchanged. -/
def emitSp (pending : List Char) : List Char :=
  if 2 ≤ pending.length then [' '] else pending

/-- Scan for `re.sub(r"[ \t]{2,}", " ", s)`: `pending` holds the current
run of space/tab characters, in order. -/
def collapseSpAux : List Char → List Char → List Char
  | [], pending => emitSp pending
  | c :: rest, pending =>
    if isSpTab c then collapseSpAux rest (pending ++ [c])
    else emitSp pending ++ c :: collapseSpAux rest []

/-- `re.sub(r"[ \t]{2,}", " ", s)`. -/
def collapseSp (l : List Char) : List Char := collapseSpAux l []

/-- `_clean_text`: `\r → \n`, collapse 3+ newlines to 2, collapse 2+
spaces/tabs to one space, strip. -/
def cleanText (s : List Char) : List Char :=
  pyStrip (collapseSp (collapseNL (s.map fun c => if c = '\r' then '\n' else c)))

/-- Scan for Python `chunk.rfind("\n\n")`: `i` is the index of the head of
the list within the chunk, `acc` the best (rightmost) match so far. -/
def rfind2Aux : List Char → Nat → Option Nat → Option Nat
  | a :: b :: rest, i, acc =>
    rfind2Aux (b :: rest) (i + 1) (if a = '\n' && b = '\n' then some i else acc)
  | _, _, acc => acc

/-- `chunk.rfind("\n\n")`, with `none` for Python's −1. -/
def rfind2NL (l : List Char) : Option Nat := rfind2Aux l 0 none

/-- The `end` position the `chunk_text` loop settles on for a chunk starting
at `start`: `min(n, start + max_chars)` and, when that does not reach the end
of the text, moved back to the chunk's last paragraph break when that break
sits beyond half of `max_chars` (`cut > max_chars * 0.5`, i.e.
`2*cut > max_chars`, as `max_chars * 0.5` is exact in floating point). -/
def chunkEnd (ct : List Char) (maxChars start : Nat) : Nat :=
  let n := ct.length
  let e1 := min n (start + maxChars)
  if e1 < n then
    match rfind2NL (sliceL ct start e1) with
    | some cut => if maxChars < 2 * cut then start + cut else e1
    | none => e1
  else e1

/-- The scan loop of `chunk_text` over the cleaned text `ct`, returning the
`(start, end)` spans of the chunks in order.  `fuel` bounds the number of
iterations; `chunkText` passes `ct.length`, which suffices whenever the
Python loop terminates at all (see `chunkText_terminates`).  The next start
is `max(0, end - overlap)`, which is exactly truncated subtraction. -/
def chunkLoop (ct : List Char) (maxChars overlap : Nat) : Nat → Nat → List (Nat × Nat)
  | 0, _ => []
  | fuel + 1, start =>
    if start < ct.length then
      let e := chunkEnd ct maxChars start
      (start, e) ::
        (if e = ct.length then [] else chunkLoop ct maxChars overlap fuel (e - overlap))
    else []

/-- `chunk_text`: clean, return `[]` on empty, otherwise emit
`text[start:end].strip()` per span and drop the chunks that strip to
nothing (`[c for c in chunks if c]`). -/
def chunkText (s : List Char) (maxChars overlap : Nat) : List (List Char) :=
  let ct := cleanText s
  if ct.isEmpty then []
  else
    ((chunkLoop ct maxChars overlap ct.length 0).map
        (fun se => pyStrip (sliceL ct se.1 se.2))).filter (fun c => !c.isEmpty)

/-- Removing from each raw chunk `text[start:end]` the overlap characters it
shares with its predecessor (those before the predecessor's end `pe`) and
concatenating what remains: the reconstruction the round-trip claim talks
about, on the spans. -/
def overlapRemoved (ct : List Char) : Nat → List (Nat × Nat) → List Char
  | _, [] => []
  | pe, se :: rest => sliceL ct pe se.2 ++ overlapRemoved ct se.2 rest

/-! ### Cleaning only shortens, and produces stripped text -/

theorem length_dropWhile_le (p : Char → Bool) (l : List Char) :
    (l.dropWhile p).length ≤ l.length := by
  induction l with
  | nil => simp
  | cons a t ih =>
    by_cases h : p a = true
    · rw [List.dropWhile_cons_of_pos h]
      exact Nat.le_succ_of_le ih
    · rw [List.dropWhile_cons_of_neg (by simp [h])]

theorem pyStrip_length_le (l : List Char) : (pyStrip l).length ≤ l.length := by
  unfold pyStrip stripRight stripLeft
  calc ((l.dropWhile isPyWs).reverse.dropWhile isPyWs).reverse.length
      = ((l.dropWhile isPyWs).reverse.dropWhile isPyWs).length := List.length_reverse _
    _ ≤ (l.dropWhile isPyWs).reverse.length := length_dropWhile_le _ _
    _ = (l.dropWhile isPyWs).length := List.length_reverse _
    _ ≤ l.length := length_dropWhile_le _ _

theorem emitNL_length (run : Nat) : (emitNL run).length ≤ run := by
  unfold emitNL
  by_cases h : 3 ≤ run <;> simp [h]
  omega

theorem collapseNLAux_length (l : List Char) :
    ∀ run, (collapseNLAux l run).length ≤ l.length + run := by
  induction l with
  | nil => intro run; simpa [collapseNLAux] using emitNL_length run
  | cons c rest ih =>
    intro run
    by_cases h : c = '\n'
    · rw [collapseNLAux, if_pos h]
      have := ih (run + 1)
      simpa [Nat.add_assoc, Nat.add_comm, Nat.add_left_comm] using this
    · rw [collapseNLAux, if_neg h]
      have h1 := emitNL_length run
      have h2 := ih 0
      simp only [List.length_append, List.length_cons]
      omega

theorem emitSp_length (pending : List Char) : (emitSp pending).length ≤ pending.length := by
  unfold emitSp
  by_cases h : 2 ≤ pending.length <;> simp [h]
  omega

theorem collapseSpAux_length (l : List Char) :
    ∀ pending, (collapseSpAux l pending).length ≤ l.length + pending.length := by
  induction l with
  | nil => intro pending; simpa [collapseSpAux] using emitSp_length pending
  | cons c rest ih =>
    intro pending
    by_cases h : isSpTab c = true
    · rw [collapseSpAux, if_pos h]
      have := ih (pending ++ [c])
      simp only [List.length_append, List.length_cons, List.length_nil] at this ⊢
      omega
    · rw [collapseSpAux, if_neg h]
      have h1 := emitSp_length pending
      have h2 := ih []
      simp only [List.length_append, List.length_cons, List.length_nil] at h2 ⊢
      omega

theorem cleanText_length_le (s : List Char) : (cleanText s).length ≤ s.length := by
  unfold cleanText collapseSp collapseNL
  have h1 := pyStrip_length_le
      (collapseSpAux (collapseNLAux (s.map fun c => if c = '\r' then '\n' else c) 0) [])
  have h2 := collapseSpAux_length (collapseNLAux (s.map fun c => if c = '\r' then '\n' else c) 0) []
  have h3 := collapseNLAux_length (s.map fun c => if c = '\r' then '\n' else c) 0
  have h4 : (s.map fun c => if c = '\r' then '\n' else c).length = s.length := List.length_map _ _
  simp only [List.length_nil] at h2
  omega

theorem dropWhile_idem (p : Char → Bool) (l : List Char) :
    (l.dropWhile p).dropWhile p = l.dropWhile p := by
  induction l with
  | nil => rfl
  | cons a t ih =>
    by_cases h : p a = true
    · rw [List.dropWhile_cons_of_pos h, ih]
    · rw [List.dropWhile_cons_of_neg (by simp [h]),
        List.dropWhile_cons_of_neg (by simp [h])]

theorem dropWhile_append_single (p : Char → Bool) (a : Char) (h : p a = false) :
    ∀ l : List Char, (l ++ [a]).dropWhile p = l.dropWhile p ++ [a] := by
  intro l
  induction l with
  | nil => simp [List.dropWhile, h]
  | cons x t ih =>
    by_cases hx : p x = true
    · rw [List.cons_append, List.dropWhile_cons_of_pos hx, ih,
        List.dropWhile_cons_of_pos hx]
    · rw [List.cons_append, List.dropWhile_cons_of_neg (by simp [hx]),
        List.dropWhile_cons_of_neg (by simp [hx]), List.cons_append]

theorem stripRight_cons_of_neg (a : Char) (t : List Char) (h : isPyWs a = false) :
    stripRight (a :: t) = a :: stripRight t := by
  unfold stripRight
  rw [List.reverse_cons, dropWhile_append_single isPyWs a h, List.reverse_append]
  rfl

theorem stripLeft_fix_of_stripRight (l : List Char) (h : stripLeft l = l) :
    stripLeft (stripRight l) = stripRight l := by
  cases l with
  | nil => rfl
  | cons a t =>
    have ha : isPyWs a = false := by
      by_cases hp : isPyWs a = true
      · exfalso
        unfold stripLeft at h
        rw [List.dropWhile_cons_of_pos hp] at h
        have := congrArg List.length h
        have hle := length_dropWhile_le isPyWs t
        simp only [List.length_cons] at this
        omega
      · exact Bool.eq_false_iff.mpr hp
    rw [stripRight_cons_of_neg a t ha]
    unfold stripLeft
    rw [List.dropWhile_cons_of_neg (by simp [ha])]

theorem stripRight_idem (l : List Char) : stripRight (stripRight l) = stripRight l := by
  unfold stripRight
  rw [List.reverse_reverse, dropWhile_idem]

theorem pyStrip_idem (l : List Char) : pyStrip (pyStrip l) = pyStrip l := by
  unfold pyStrip
  have h1 : stripLeft (stripLeft l) = stripLeft l := dropWhile_idem isPyWs l
  have h2 : stripLeft (stripRight (stripLeft l)) = stripRight (stripLeft l) :=
    stripLeft_fix_of_stripRight (stripLeft l) h1
  rw [h2, stripRight_idem]

theorem pyStrip_cleanText (s : List Char) : pyStrip (cleanText s) = cleanText s := by
  unfold cleanText
  exact pyStrip_idem _

/-- Claim C6 (amended): `chunk_text("", ...)` is `[]` for all parameters,
and for a string of fewer than 900 characters whose whitespace-normalized
trim is non-empty, `chunk_text(s, 900, 120)` is exactly the one chunk
`_clean_text(s)`.  A non-empty but whitespace-only `s` normalizes to the
empty string and yields `[]`, not one chunk — see the counterexample. -/
theorem chunkText_short_input (mc ov : Nat) (s : List Char)
    (hlen : s.length < 900) (hne : cleanText s ≠ []) :
    chunkText [] mc ov = [] ∧
    chunkText s 900 120 = [cleanText s] := by
  constructor
  · rfl
  · have hclen : (cleanText s).length < 900 :=
      Nat.lt_of_le_of_lt (cleanText_length_le s) hlen
    have hpos : 0 < (cleanText s).length := List.length_pos.mpr hne
    obtain ⟨m, hm⟩ : ∃ m, (cleanText s).length = m + 1 := by
      cases h : (cleanText s).length with
      | zero => omega
      | succ k => exact ⟨k, rfl⟩
    have hemp : (cleanText s).isEmpty = false := by
      simp [List.isEmpty_iff, hne]
    unfold chunkText
    simp only [hemp, Bool.false_eq_true, if_false]
    have hend : chunkEnd (cleanText s) 900 0 = (cleanText s).length := by
      unfold chunkEnd
      have hmin : min (cleanText s).length (0 + 900) = (cleanText s).length := by
        omega
      simp only [hmin]
      rw [if_neg (by omega)]
    have hloop : chunkLoop (cleanText s) 900 120 (cleanText s).length 0 =
        [(0, (cleanText s).length)] := by
      conv_lhs => rw [hm]
      rw [chunkLoop]
      rw [if_pos hpos]
      simp only [hend]
      simp
    rw [hloop]
    have hslice : sliceL (cleanText s) 0 (cleanText s).length = cleanText s := by
      unfold sliceL
      simp [List.take_length]
    simp only [List.map_cons, List.map_nil, hslice, pyStrip_cleanText]
    rw [List.filter_cons]
    simp [hemp]

/-- Witness for C6 at a concrete short string. -/
theorem chunkText_short_input_witness :
    (("hi".data : List Char).length < 900) ∧ cleanText "hi".data ≠ [] ∧
    (chunkText [] 7 2 = [] ∧ chunkText "hi".data 900 120 = [cleanText "hi".data]) :=
  ⟨by decide, by decide, chunkText_short_input 7 2 "hi".data (by decide) (by decide)⟩

/-- Claim C6, counterexample to the original statement: the one-character
string `" "` has fewer than 900 characters, but `chunk_text(" ", 900, 120)`
returns no chunk at all (the cleaned text is empty), not “exactly one chunk
equal to the whitespace-normalized, trimmed s”. -/
theorem chunkText_whitespace_cex :
    ([' '] : List Char).length < 900 ∧
    chunkText [' '] 900 120 = [] := by
  constructor
  · decide
  · rfl

/-! ### The chunk spans: bounds, progress, reconstruction -/

theorem rfind2Aux_bound (l : List Char) :
    ∀ (i : Nat) (acc : Option Nat) (c : Nat),
      (∀ j, acc = some j → j + 2 ≤ i + l.length) →
      rfind2Aux l i acc = some c → c + 2 ≤ i + l.length := by
  induction l with
  | nil =>
    intro i acc c hacc h
    simp only [rfind2Aux] at h
    exact hacc c h
  | cons a t ih =>
    intro i acc c hacc h
    cases t with
    | nil =>
      simp only [rfind2Aux] at h
      exact hacc c h
    | cons b rest =>
      simp only [rfind2Aux] at h
      have hacc2 : ∀ j, (if a = '\n' && b = '\n' then some i else acc) = some j →
          j + 2 ≤ (i + 1) + (b :: rest).length := by
        intro j hj
        by_cases hab : (a = '\n' && b = '\n') = true
        · rw [if_pos hab] at hj
          have : i = j := by injection hj
          simp only [List.length_cons]
          omega
        · rw [if_neg hab] at hj
          have := hacc j hj
          simp only [List.length_cons] at this ⊢
          omega
      have := ih (i + 1) _ c hacc2 h
      simp only [List.length_cons] at this ⊢
      omega

theorem rfind2NL_bound (l : List Char) (c : Nat) (h : rfind2NL l = some c) :
    c + 2 ≤ l.length := by
  have := rfind2Aux_bound l 0 none c (by intro j hj; cases hj) h
  simpa using this

theorem sliceL_length (l : List Char) (a b : Nat) :
    (sliceL l a b).length = min (b - a) (l.length - a) := by
  unfold sliceL
  rw [List.length_take, List.length_drop]

theorem sliceL_append (l : List Char) (a b c : Nat) (hab : a ≤ b) (hbc : b ≤ c) :
    sliceL l a b ++ sliceL l b c = sliceL l a c := by
  unfold sliceL
  have h1 : l.drop b = (l.drop a).drop (b - a) := by
    rw [List.drop_drop]
    congr 1
    omega
  have h2 : c - a = (b - a) + (c - b) := by omega
  rw [h1, h2, List.take_add]

theorem chunkEnd_cases (ct : List Char) (mc start : Nat) :
    chunkEnd ct mc start = min ct.length (start + mc) ∨
    (∃ cut, rfind2NL (sliceL ct start (min ct.length (start + mc))) = some cut ∧
      mc < 2 * cut ∧ min ct.length (start + mc) < ct.length ∧
      chunkEnd ct mc start = start + cut) := by
  simp only [chunkEnd]
  by_cases he : min ct.length (start + mc) < ct.length
  · rw [if_pos he]
    cases hr : rfind2NL (sliceL ct start (min ct.length (start + mc))) with
    | none => exact Or.inl rfl
    | some cut =>
      by_cases hc : mc < 2 * cut
      · exact Or.inr ⟨cut, rfl, hc, he, by simp [hc]⟩
      · exact Or.inl (by simp [hc])
  · rw [if_neg he]
    exact Or.inl rfl

theorem chunkEnd_le (ct : List Char) (mc start : Nat) : chunkEnd ct mc start ≤ ct.length := by
  rcases chunkEnd_cases ct mc start with h | ⟨cut, hr, hc, he, h⟩
  · rw [h]
    omega
  · rw [h]
    have hb := rfind2NL_bound _ _ hr
    rw [sliceL_length] at hb
    omega

theorem chunkEnd_progress (ct : List Char) (mc ov start : Nat) (hmc : 2 * ov < mc)
    (hs : start < ct.length) (hne : chunkEnd ct mc start ≠ ct.length) :
    start + 1 ≤ chunkEnd ct mc start - ov ∧ chunkEnd ct mc start < ct.length ∧
    mc - 2 * ov ≤ 2 * (chunkEnd ct mc start - ov - start) := by
  rcases chunkEnd_cases ct mc start with h | ⟨cut, hr, hc, he, h⟩
  · rw [h] at hne ⊢
    omega
  · rw [h] at hne ⊢
    have hb := rfind2NL_bound _ _ hr
    rw [sliceL_length] at hb
    omega

theorem chunkEnd_next_ge (ct : List Char) (mc ov start : Nat) (hmc : 2 * ov < mc)
    (hs : start < ct.length) (hne : chunkEnd ct mc start ≠ ct.length) :
    chunkEnd ct mc start ≤ chunkEnd ct mc (chunkEnd ct mc start - ov) := by
  obtain ⟨h1, h2, _⟩ := chunkEnd_progress ct mc ov start hmc hs hne
  rcases chunkEnd_cases ct mc (chunkEnd ct mc start - ov) with h | ⟨cut, hr, hc, hee, h⟩
  · rw [h]
    omega
  · rw [h]
    omega

theorem chunkLoop_step (ct : List Char) (mc ov fuel start : Nat) (hs : start < ct.length) :
    chunkLoop ct mc ov (fuel + 1) start =
      (start, chunkEnd ct mc start) ::
        (if chunkEnd ct mc start = ct.length then []
         else chunkLoop ct mc ov fuel (chunkEnd ct mc start - ov)) := by
  rw [chunkLoop, if_pos hs]

theorem chunkLoop_reconstruct (ct : List Char) (mc ov : Nat) (hmc : 2 * ov < mc) :
    ∀ (fuel start pe : Nat), start < ct.length → ct.length - start ≤ fuel →
      pe ≤ chunkEnd ct mc start →
      overlapRemoved ct pe (chunkLoop ct mc ov fuel start) = sliceL ct pe ct.length := by
  intro fuel
  induction fuel with
  | zero =>
    intro start pe hs hf hpe
    omega
  | succ f ih =>
    intro start pe hs hf hpe
    rw [chunkLoop_step ct mc ov f start hs]
    by_cases he : chunkEnd ct mc start = ct.length
    · rw [if_pos he]
      simp only [overlapRemoved]
      rw [List.append_nil, he]
    · rw [if_neg he]
      simp only [overlapRemoved]
      obtain ⟨h1, h2, _⟩ := chunkEnd_progress ct mc ov start hmc hs he
      have hnext := chunkEnd_next_ge ct mc ov start hmc hs he
      rw [ih (chunkEnd ct mc start - ov) (chunkEnd ct mc start) (by omega) (by omega) hnext]
      exact sliceL_append ct pe (chunkEnd ct mc start) ct.length hpe (chunkEnd_le ct mc start)

/-- Claim C7 (amended): the raw chunk spans the `chunk_text` loop walks —
before each chunk is stripped — reconstruct the whitespace-normalized source
text exactly: dropping from every span the overlap characters shared with
its predecessor and concatenating yields `_clean_text(text)`, for every
input and all parameters with `overlap < max_chars / 2` (the loop's progress
condition).  The *returned* chunks are the per-span `strip()`s, which can
drop boundary whitespace, so the round-trip fails for them — see the
counterexample. -/
theorem chunkText_spans_roundtrip (s : List Char) (mc ov : Nat) (hmc : 2 * ov < mc) :
    overlapRemoved (cleanText s) 0
      (chunkLoop (cleanText s) mc ov (cleanText s).length 0) = cleanText s := by
  by_cases hct : (cleanText s).length = 0
  · have hnil : cleanText s = [] := List.length_eq_zero.mp hct
    rw [hnil]
    rfl
  · have hpos : 0 < (cleanText s).length := Nat.pos_of_ne_zero hct
    have h := chunkLoop_reconstruct (cleanText s) mc ov hmc (cleanText s).length 0 0 hpos
      (by omega) (by omega)
    rw [h]
    unfold sliceL
    simp [List.take_length]

/-- Witness for C7 at a concrete text and parameters. -/
theorem chunkText_spans_roundtrip_witness :
    2 * 1 < 3 ∧
    overlapRemoved (cleanText ['a', 'b']) 0
      (chunkLoop (cleanText ['a', 'b']) 3 1 (cleanText ['a', 'b']).length 0) =
      cleanText ['a', 'b'] :=
  ⟨by decide, chunkText_spans_roundtrip ['a', 'b'] 3 1 (by decide)⟩

/-- Claim C7, counterexample to the original statement: for the 13-character
text `"aaaaaaaaa\nbbb"` (already normalized) with `max_chars = 10`,
`overlap = 0`, `chunk_text` strips the first chunk's trailing `"\n"` away,
returning `["aaaaaaaaa", "bbb"]` — only 12 characters in total — so no
removal of repeated overlap characters from the second chunk can
reconstruct the normalized source. -/
theorem chunkText_strip_loss_cex :
    chunkText ("aaaaaaaaa\nbbb").data 10 0 = ["aaaaaaaaa".data, "bbb".data] ∧
    cleanText ("aaaaaaaaa\nbbb").data = ("aaaaaaaaa\nbbb").data ∧
    ¬ ∃ k, "aaaaaaaaa".data ++ ("bbb".data).drop k = cleanText ("aaaaaaaaa\nbbb").data := by
  refine ⟨by decide, by decide, ?_⟩
  rintro ⟨k, hk⟩
  have hlen := congrArg List.length hk
  have h1 : ("aaaaaaaaa".data).length = 9 := by decide
  have h3 : (cleanText ("aaaaaaaaa\nbbb").data).length = 13 := by decide
  have h2 : (("bbb".data).drop k).length ≤ 3 := by
    have hb : ("bbb".data).length = 3 := by decide
    have hd := List.length_drop k ("bbb".data)
    omega
  rw [List.length_append] at hlen
  omega

/-- Claim C10: under `0 ≤ overlap < max_chars / 2` every iteration of the
`chunk_text` scan loop that does not reach the end of the text strictly
increases `start`, advancing by at least `max_chars/2 − overlap` characters
(stated doubled to stay in integers), and the loop therefore terminates: its
unfolding is fuel-insensitive once the fuel reaches the remaining length, so
`ct.length` iterations always complete the scan. -/
theorem chunkText_terminates (ct : List Char) (mc ov : Nat) (hmc : 2 * ov < mc) :
    (∀ start, start < ct.length → chunkEnd ct mc start ≠ ct.length →
        start < chunkEnd ct mc start - ov ∧
        mc - 2 * ov ≤ 2 * (chunkEnd ct mc start - ov - start)) ∧
    (∀ f1 f2 start, ct.length - start ≤ f1 → ct.length - start ≤ f2 →
        chunkLoop ct mc ov f1 start = chunkLoop ct mc ov f2 start) := by
  constructor
  · intro start hs hne
    obtain ⟨h1, h2, h3⟩ := chunkEnd_progress ct mc ov start hmc hs hne
    exact ⟨by omega, h3⟩
  · intro f1
    induction f1 with
    | zero =>
      intro f2 start h1 h2
      cases f2 with
      | zero => rfl
      | succ g =>
        rw [chunkLoop, chunkLoop, if_neg (by omega)]
    | succ f ih =>
      intro f2 start h1 h2
      cases f2 with
      | zero =>
        rw [chunkLoop, chunkLoop, if_neg (by omega)]
      | succ g =>
        by_cases hs : start < ct.length
        · rw [chunkLoop_step ct mc ov f start hs, chunkLoop_step ct mc ov g start hs]
          by_cases he : chunkEnd ct mc start = ct.length
          · rw [if_pos he, if_pos he]
          · rw [if_neg he, if_neg he]
            obtain ⟨hp1, hp2, _⟩ := chunkEnd_progress ct mc ov start hmc hs he
            rw [ih g (chunkEnd ct mc start - ov) (by omega) (by omega)]
        · rw [chunkLoop, chunkLoop, if_neg hs, if_neg hs]

/-- Witness for C10: with the default-shaped parameters scaled down, extra
fuel does not change the loop's output. -/
theorem chunkText_terminates_witness :
    chunkLoop ['a'] 2 0 5 0 = chunkLoop ['a'] 2 0 1 0 :=
  (chunkText_terminates ['a'] 2 0 (by decide)).2 5 1 0 (by decide) (by decide)

/-! ## The RAG export (`_stable_id`, `build_rag_json` of `src/app.py`) -/

/-- `_stable_id`: `hashlib.sha1("|".join(parts).encode()).hexdigest()[:16]`.
The external SHA-1 hex digest is abstracted as a function
`hash : String → String`; everything the claims say about ids —
their shape and their determinism in the 4-tuple — holds for every choice of
that function. -/
def stableId (hash : String → String) (parts : List String) : String :=
  strTake 16 (hash (strJoinSep "|" parts))

/-- `str(page_num)` or the literal `"doc"`, the second component of the
id tuple. -/
def pageKey : Option Nat → String
  | some n => toString n
  | none => "doc"

/-- One element of the `"chunks"` array `build_rag_json` emits (its
`metadata` sub-dict flattened into fields; `text` kept as the chunk's
character list). -/
structure RagChunk where
  id : String
  text : List Char
  file_name : String
  file_type : String
  tool_used : String
  page : Option Nat
  chunk_index : Nat
deriving DecidableEq

/-- The parse results dict as `build_rag_json` reads it. -/
structure ParseResults where
  file_name : String
  file_type : String
  tool_used : String
  pages : List PyPage
  content : String
deriving DecidableEq

/-- The `for i, ch in enumerate(page_chunks)` loop body: one `RagChunk` per
chunk, with `_stable_id(file_name, page-or-"doc", str(i), ch[:40])`. -/
def ragChunksAux (hash : String → String) (fn ft tu : String) (pg : Option Nat) :
    Nat → List (List Char) → List RagChunk
  | _, [] => []
  | i, ch :: rest =>
    { id := stableId hash [fn, pageKey pg, toString i, ⟨ch.take 40⟩]
    , text := ch
    , file_name := fn
    , file_type := ft
    , tool_used := tu
    , page := pg
    , chunk_index := i } :: ragChunksAux hash fn ft tu pg (i + 1) rest

/-- The `"chunks"` array of `build_rag_json` (the surrounding JSON object
also carries a schema tag, a wall-clock `created_at` timestamp and a
document block; none of it affects the chunks).  Pages take priority; a page
whose cleaned content is empty is skipped (`continue`); with no pages the
cleaned flat `content` is chunked once under the `"doc"` key. -/
def buildRagChunks (hash : String → String) (r : ParseResults) (cs ov : Nat) :
    List RagChunk :=
  if !r.pages.isEmpty then
    (r.pages.map fun p =>
      if (cleanText p.content.data).isEmpty then []
      else
        ragChunksAux hash r.file_name r.file_type r.tool_used (some p.page_number) 0
          (chunkText (cleanText p.content.data) cs ov)).flatten
  else
    ragChunksAux hash r.file_name r.file_type r.tool_used none 0
      (chunkText (cleanText r.content.data) cs ov)

theorem ragChunksAux_mem (hash : String → String) (fn ft tu : String) (pg : Option Nat) :
    ∀ (i : Nat) (chunks : List (List Char)) (c : RagChunk),
      c ∈ ragChunksAux hash fn ft tu pg i chunks →
      c.id = stableId hash [c.file_name, pageKey c.page, toString c.chunk_index,
        ⟨c.text.take 40⟩] ∧
      c.file_name = fn ∧ c.page = pg := by
  intro i chunks
  induction chunks generalizing i with
  | nil =>
    intro c hc
    simp [ragChunksAux] at hc
  | cons ch rest ih =>
    intro c hc
    rw [ragChunksAux] at hc
    rcases List.mem_cons.mp hc with rfl | hc
    · exact ⟨rfl, rfl, rfl⟩
    · exact ih (i + 1) c hc

/-- Claim C8: every chunk id `build_rag_json` produces is the 16-character
truncation of the fixed hash of the `"|"`-join of the 4-tuple
`(file_name, page-or-"doc", chunk_index, first 40 chars of the chunk text)`
— so two chunks agreeing on the 4-tuple get the identical id, whatever
document, page list or parameters produced each of them. -/
theorem ragChunk_id_stable (hash : String → String) (r r' : ParseResults)
    (cs ov cs' ov' : Nat) (c c' : RagChunk)
    (hc : c ∈ buildRagChunks hash r cs ov) (hc' : c' ∈ buildRagChunks hash r' cs' ov') :
    c.id = stableId hash
      [c.file_name, pageKey c.page, toString c.chunk_index, ⟨c.text.take 40⟩] ∧
    (c.file_name = c'.file_name → c.page = c'.page → c.chunk_index = c'.chunk_index →
      c.text.take 40 = c'.text.take 40 → c.id = c'.id) := by
  have hform : ∀ (r'' : ParseResults) (cs'' ov'' : Nat) (d : RagChunk),
      d ∈ buildRagChunks hash r'' cs'' ov'' →
      d.id = stableId hash
        [d.file_name, pageKey d.page, toString d.chunk_index, ⟨d.text.take 40⟩] := by
    intro r'' cs'' ov'' d hd
    unfold buildRagChunks at hd
    by_cases hp : r''.pages.isEmpty = true
    · rw [hp] at hd
      simp only [Bool.not_true, Bool.false_eq_true, if_false] at hd
      exact (ragChunksAux_mem hash _ _ _ _ 0 _ d hd).1
    · rw [Bool.not_eq_true] at hp
      rw [hp] at hd
      simp only [Bool.not_false, if_true] at hd
      rcases List.mem_flatten.mp hd with ⟨l, hl, hdl⟩
      rcases List.mem_map.mp hl with ⟨p, hpmem, rfl⟩
      by_cases hemp : (cleanText p.content.data).isEmpty = true
      · rw [if_pos hemp] at hdl
        cases hdl
      · rw [if_neg hemp] at hdl
        exact (ragChunksAux_mem hash _ _ _ _ 0 _ d hdl).1
  have h1 := hform r cs ov c hc
  refine ⟨h1, ?_⟩
  intro e1 e2 e3 e4
  have h2 := hform r' cs' ov' c' hc'
  rw [h1, h2, e1, e2, e3, e4]

/-- A one-page parse result for the C8 witness. -/
def ragSampleResults : ParseResults :=
  { file_name := "f.pdf"
  , file_type := "pdf"
  , tool_used := "PyMuPDF"
  , pages := [{ page_number := 1, content := "hi" }]
  , content := "hi" }

/-- The chunk `build_rag_json` produces for `ragSampleResults` under the
identity stand-in for the hex digest. -/
def ragSampleChunk : RagChunk :=
  { id := "f.pdf|1|0|hi"
  , text := "hi".data
  , file_name := "f.pdf"
  , file_type := "pdf"
  , tool_used := "PyMuPDF"
  , page := some 1
  , chunk_index := 0 }

/-- Witness for C8 at a concrete document and hash function. -/
theorem ragChunk_id_stable_witness :
    (ragSampleChunk ∈ buildRagChunks id ragSampleResults 900 120) ∧
    ragSampleChunk.id = stableId id [ragSampleChunk.file_name, pageKey ragSampleChunk.page,
      toString ragSampleChunk.chunk_index, ⟨ragSampleChunk.text.take 40⟩] :=
  ⟨by decide, (ragChunk_id_stable id ragSampleResults ragSampleResults 900 120 900 120
      ragSampleChunk ragSampleChunk (by decide) (by decide)).1⟩

end DocParse
